import Mathlib

/-!
Verification of the hybrid lawyer query-resolution engine.

This file gives a shallow embedding, in Lean 4, of the core components of
the lawyer-search repository: the query classifier
(query_classifier.py), the keyword pre-filter (keyword_filter.py), the
judge verifier (llm_filter.py), the result cache (main.py, class
QueryCache), the predicate compiler (search.py, compile_ast_to_sql) and
the semantic retriever (semantic_search.py).  External collaborators
(the regex engine, the LLM evaluator, the embedding provider, the SQLite
storage layer, the alias table) are modelled as explicit function
parameters, exactly at the call boundaries the Python code uses them.

Python strings are modelled by Lean String values; the handful of string
operations the code relies on (lower, strip, substring containment,
str.split segment extraction, whitespace word splitting) are implemented
below as structurally recursive functions over the character list of a
String, so that every definition evaluates inside the kernel.
-/

/-! ## String primitives (models of the Python string operations used) -/

/-- Model of Python lower(): character-wise lowercasing. -/
def pyLower (s : String) : String := ⟨s.data.map Char.toLower⟩

/-- Whitespace test used by the model of str.strip and str.split. -/
def pyWs (c : Char) : Bool := c.isWhitespace

/-- Drop whitespace from the front and the back of a character list. -/
def trimChars (l : List Char) : List Char :=
  ((l.dropWhile pyWs).reverse.dropWhile pyWs).reverse

/-- Model of Python strip(): remove leading and trailing whitespace. -/
def pyStrip (s : String) : String := ⟨trimChars s.data⟩

/-- Does the first list start with the second one? -/
def startsWithList : List Char → List Char → Bool
  | _, [] => true
  | [], _ :: _ => false
  | c :: cs, d :: ds => c == d && startsWithList cs ds

/-- The suffix of a list after the first occurrence of sep, or none when
sep does not occur.  Models locating a separator for str.split. -/
def afterFirstSub (sep : List Char) : List Char → Option (List Char)
  | [] => if startsWithList [] sep then some [] else none
  | c :: cs =>
    if startsWithList (c :: cs) sep then some (List.drop sep.length (c :: cs))
    else afterFirstSub sep cs

/-- The prefix of a list before the first occurrence of sep (the whole
list when sep does not occur).  Models segment zero of str.split. -/
def beforeFirstSub (sep : List Char) : List Char → List Char
  | [] => []
  | c :: cs =>
    if startsWithList (c :: cs) sep then []
    else c :: beforeFirstSub sep cs

/-- Model of the Python containment test sub in s. -/
def pyContains (s sub : String) : Bool := (afterFirstSub sub.data s.data).isSome

/-- Model of response.split(sep)[1]: the segment strictly between the
first and the second occurrence of sep (to the end when sep occurs only
once).  Callers in the source guard it with a containment check, so the
missing-separator fallback (the empty string) is never reached. -/
def pySplitSecond (s sep : String) : String :=
  ⟨beforeFirstSub sep.data ((afterFirstSub sep.data s.data).getD [])⟩

/-- Model of s.split(sep)[0]: the prefix before the first occurrence. -/
def pySplitFirst (s sep : String) : String := ⟨beforeFirstSub sep.data s.data⟩

/-- Model of Python str.split() with no argument: split on whitespace
runs, discarding empty words. -/
def wordsGo : List Char → List Char → List String
  | [], cur => if cur.isEmpty then [] else [⟨cur.reverse⟩]
  | c :: cs, cur =>
    if pyWs c then
      if cur.isEmpty then wordsGo cs [] else (⟨cur.reverse⟩ : String) :: wordsGo cs []
    else wordsGo cs (c :: cur)

/-- Model of str(value).split() over a whole string. -/
def pyWords (s : String) : List String := wordsGo s.data []

/-! ## Query classifier (query_classifier.py, classify_query_fast)

The regex engine re.search is an external collaborator: it is passed in
as a Boolean-valued function reSearch pattern text.  The two fixed
pattern lists are transcribed verbatim from the source. -/

/-- The simple-intent (structured) signal patterns of classify_query_fast. -/
def simple_patterns : List String :=
  [ r"\b(named|called|with name)\b",
    r"\b(went to|graduated from|attended|studied at)\s+\w+",
    r"\b(partner|associate|counsel|senior)s?\b",
    r"\b(speak|speaks|speaking)\s+\w+",
    r"\b(graduated|graduation)\s+(after|before|in)\s+\d{4}",
    r"\b(office|location|based|located)\s+(in|at)",
    r"\b(practice|practices|area)\b",
    r"^\w+\s+\w+$" ]

/-- The complex-intent (semantic) signal patterns of classify_query_fast. -/
def complex_patterns : List String :=
  [ r"\b(worked on|represented|defended|prosecuted|handled)\b",
    r"\b(case|deal|transaction|matter|litigation|ipo|merger|acquisition)\b",
    r"\b(experience|expertise|background)\s+(with|in)\b",
    r"\b(fortune\s*500|tech\s*(company|companies|startup)|pharma|bank)\b",
    r"\b(tv\s*network|streaming|broadcast|media)\b" ]

/-- The loop over simple_patterns inside classify_query_fast: the first
simple pattern that matches returns the label simple, unless some
complex pattern also matches, in which case the loop keeps scanning and
falls through. -/
def simpleScan (reSearch : String → String → Bool) (ql : String) : List String → Option String
  | [] => none
  | p :: rest =>
    if reSearch p ql then
      if complex_patterns.any (fun c => reSearch c ql) then simpleScan reSearch ql rest
      else some "simple"
    else simpleScan reSearch ql rest

/-- Model of classify_query_fast: deterministic two-list pattern stage of
the classifier.  Returns simple, complex or unknown. -/
def classify_query_fast (reSearch : String → String → Bool) (query : String) : String :=
  let ql := pyStrip (pyLower query)
  match simpleScan reSearch ql simple_patterns with
  | some r => r
  | none =>
    if complex_patterns.any (fun c => reSearch c ql) then "complex" else "unknown"

/-! ## Keyword pre-filter (keyword_filter.py)

extract_keywords is regex extraction over the query; the keyword set it
produces is taken as an explicit argument here, so every theorem below
quantifies over all possible extracted keyword sets.  The cached-text
lookup (table experience_embeddings) is a function from lawyer id to an
optional pair of nullable columns (parsed_text, content). -/

/-- Model of keyword_filter_candidates.  texts models the database read
of (parsed_text, content) for a lawyer id: none means no row, and each
column is itself nullable.  A candidate without a cached row is kept. -/
def keyword_filter_candidates (keywords : List String)
    (texts : Int → Option (Option String × Option String))
    (min_keyword_matches : Nat) (candidate_ids : List Int) : List Int :=
  if keywords.isEmpty then candidate_ids
  else
    candidate_ids.filter fun lawyer_id =>
      match texts lawyer_id with
      | none => true
      | some (pt, ct) =>
        let text := (pt.getD "") ++ " " ++ (ct.getD "")
        let text_lower := pyLower text
        let nMatches := (keywords.filter (fun kw => pyContains text_lower kw)).length
        if min_keyword_matches = 0 then decide (0 < nMatches) || keywords.isEmpty
        else decide (min_keyword_matches ≤ nMatches)

/-- Model of smart_filter_candidates: adaptive threshold choice plus the
fall-back to the first 20 semantic candidates when filtering empties the
pool. -/
def smart_filter_candidates (keywords : List String)
    (texts : Int → Option (Option String × Option String))
    (candidate_ids : List Int) : List Int :=
  let filtered :=
    if 3 ≤ keywords.length then
      let f := keyword_filter_candidates keywords texts 2 candidate_ids
      if f.length < 5 then keyword_filter_candidates keywords texts 1 candidate_ids else f
    else if 1 ≤ keywords.length then
      keyword_filter_candidates keywords texts 1 candidate_ids
    else candidate_ids
  if filtered.length = 0 ∧ 0 < candidate_ids.length then candidate_ids.take 20
  else filtered

/-! ## Judge verifier (llm_filter.py)

The LLM evaluator is an external collaborator.  Its outcome for one
candidate is modelled as Except String String: ok response is the raw
text the model returned, error e is any exception raised inside the
try-block of evaluate_lawyer_for_query (transport error, per-call
timeout of the llm call, database failure while loading the cached
profile text).  The cached or scraped profile text is a parameter as
well; it only feeds the prompt, so it does not influence the verdict
computation once the response is fixed. -/

/-- Model of evaluate_lawyer_for_query: parses the judge response into
the verdict triple (lawyer_id, passes, reasoning).  Any exception is
converted to a failed verdict carrying an Error rationale. -/
def evaluate_lawyer_for_query (lawyer_id : Int) (profile_text : String)
    (llmResult : Except String String) : Int × Bool × String :=
  match llmResult with
  | .error e => (lawyer_id, false, "Error: " ++ e)
  | .ok response =>
    let reasoning :=
      if pyContains response "<thinking>" && pyContains response "</thinking>" then
        pyStrip (pySplitFirst (pySplitSecond response "<thinking>") "</thinking>")
      else ""
    let answer :=
      if pyContains response "<answer>" && pyContains response "</answer>" then
        pyStrip (pySplitFirst (pySplitSecond response "<answer>") "</answer>")
      else "Fail"
    (lawyer_id, pyLower answer == "pass", reasoning)

/-- One entry of the list parallel_llm_filter returns. -/
structure FilterResult where
  id : Int
  name : String
  url : String
  reasoning : String
deriving DecidableEq, Repr

/-- The contribution of one candidate to the judge-verifier result
list: nothing when the candidate has no lawyers-table row (it is never
submitted), when future.result raised at collection time (collectOk
false), or when the verdict is not passed; otherwise the result entry
built from the lawyers-table row and the verdict rationale. -/
def evalEntry (info : Int → Option (String × String)) (profiles : Int → String)
    (llmResults : Int → Except String String) (collectOk : Int → Bool)
    (lawyer_id : Int) : Option FilterResult :=
  match info lawyer_id with
  | none => none
  | some (nm, u) =>
    if collectOk lawyer_id then
      let r := evaluate_lawyer_for_query lawyer_id (profiles lawyer_id) (llmResults lawyer_id)
      if r.2.1 then some ⟨lawyer_id, nm, u, r.2.2⟩ else none
    else none

/-- Model of parallel_llm_filter.  info models the lawyers-table lookup
(name, url) used to build lawyer_info; ids with no row are never
submitted.  profiles gives each candidate its profile text, llmResults
the judge outcome of its evaluation call, and collectOk whether
future.result returned within the 30 second collection timeout (when it
does not, the candidate is skipped and the loop continues).  Futures are
collected in submission order, which is the candidate order, so the
model is a filterMap over lawyer_ids. -/
def parallel_llm_filter (lawyer_ids : List Int)
    (info : Int → Option (String × String))
    (profiles : Int → String)
    (llmResults : Int → Except String String)
    (collectOk : Int → Bool) : List FilterResult :=
  lawyer_ids.filterMap (evalEntry info profiles llmResults collectOk)

/-- Model of filter_with_reasoning: the parallel filter result sorted
ascending by name (Python list.sort with key name, a stable sort). -/
def filter_with_reasoning (lawyer_ids : List Int)
    (info : Int → Option (String × String))
    (profiles : Int → String)
    (llmResults : Int → Except String String)
    (collectOk : Int → Bool) : List FilterResult :=
  (parallel_llm_filter lawyer_ids info profiles llmResults collectOk).mergeSort
    (fun a b => decide (a.name ≤ b.name))

/-! ## Result cache (main.py, class QueryCache)

The OrderedDict self.cache is modelled as an association list whose
front is the oldest (least recently used) binding and whose back is the
most recent one; self.timestamps is a plain association list.  The
injectable clock is the explicit now argument of each operation.  The
md5 digest in _get_key is modelled as the identity encoding of the
combined string (the claims under verification never depend on digest
collisions).  Operations that raise in Python (KeyError on a timestamp
missing for a live key, StopIteration when evicting from an empty dict
with max_size zero) return none and leave the state unchanged, which is
what the caller of the raising method observes. -/

/-- First value bound to a key in an association list. -/
def lookupA {β : Type} (l : List (String × β)) (k : String) : Option β :=
  match l with
  | [] => none
  | (k0, v0) :: rest => if k0 = k then some v0 else lookupA rest k

/-- Remove every binding of a key (keys are unique in reachable states). -/
def eraseA {β : Type} (l : List (String × β)) (k : String) : List (String × β) :=
  l.filter fun kv => decide (kv.1 ≠ k)

/-- Python dict assignment: overwrite in place when the key is present,
append at the back otherwise. -/
def setA {β : Type} (l : List (String × β)) (k : String) (v : β) : List (String × β) :=
  match l with
  | [] => [(k, v)]
  | (k0, v0) :: rest => if k0 = k then (k0, v) :: rest else (k0, v0) :: setA rest k v

/-- Model of OrderedDict.move_to_end: reposition the binding of a present key at
the back.  Missing keys leave the list unchanged (the source only calls
it on keys it just read or wrote). -/
def moveToEnd {β : Type} (l : List (String × β)) (k : String) : List (String × β) :=
  match lookupA l k with
  | none => l
  | some v => eraseA l k ++ [(k, v)]

/-- State of a QueryCache instance. -/
structure QueryCache (α : Type) where
  cache : List (String × α)
  timestamps : List (String × Int)
  max_size : Nat
  ttl_seconds : Int

/-- The constructor QueryCache(max_size, ttl_seconds). -/
def QueryCache.init (α : Type) (max_size : Nat) (ttl_seconds : Int) : QueryCache α :=
  ⟨[], [], max_size, ttl_seconds⟩

/-- Model of QueryCache._get_key: normalized query text combined with
the database path (md5 modelled as the identity encoding). -/
def QueryCache.getKey (query db_path : String) : String :=
  pyStrip (pyLower query) ++ ":" ++ db_path

/-- Model of QueryCache.get at clock value now: returns the cached value
(or none) together with the successor state.  An expired entry is purged
from both maps and reported as a miss; a live hit is moved to the back
of the recency order. -/
def QueryCache.get {α : Type} (c : QueryCache α) (now : Int) (query db_path : String) :
    Option α × QueryCache α :=
  let key := QueryCache.getKey query db_path
  match lookupA c.cache key with
  | none => (none, c)
  | some v =>
    match lookupA c.timestamps key with
    | none => (none, c)
    | some ts =>
      if c.ttl_seconds < now - ts then
        (none, { c with cache := eraseA c.cache key, timestamps := eraseA c.timestamps key })
      else
        (some v, { c with cache := moveToEnd c.cache key })

/-- Model of QueryCache.set at clock value now.  When the cache is at
capacity and the key is fresh, the front binding (the least recently
used one) is evicted from both maps first; none models the StopIteration
raised when max_size is zero and the cache is empty. -/
def QueryCache.set {α : Type} (c : QueryCache α) (now : Int) (query db_path : String)
    (results : α) : Option (QueryCache α) :=
  let key := QueryCache.getKey query db_path
  let evicted :=
    if c.max_size ≤ c.cache.length ∧ (lookupA c.cache key).isNone then
      match c.cache with
      | [] => none
      | (k0, _) :: _ =>
        some { c with cache := eraseA c.cache k0, timestamps := eraseA c.timestamps k0 }
    else some c
  evicted.map fun c1 =>
    { c1 with
      cache := moveToEnd (setA c1.cache key results) key,
      timestamps := setA c1.timestamps key now }

/-- Model of QueryCache.clear. -/
def QueryCache.clear {α : Type} (c : QueryCache α) : QueryCache α :=
  { c with cache := [], timestamps := [] }

/-- One externally observable cache operation, with its clock reading. -/
inductive CacheOp (α : Type) where
  | get (now : Int) (query db_path : String)
  | set (now : Int) (query db_path : String) (results : α)
  | clear

/-- State transition of one operation.  A raising set (StopIteration
with max_size zero) propagates before any mutation, so the state is
unchanged. -/
def CacheOp.step {α : Type} (c : QueryCache α) : CacheOp α → QueryCache α
  | .get now q db => (QueryCache.get c now q db).2
  | .set now q db v => (QueryCache.set c now q db v).getD c
  | .clear => QueryCache.clear c

/-- State after running a sequence of operations from a given state. -/
def CacheOp.run {α : Type} (c : QueryCache α) (ops : List (CacheOp α)) : QueryCache α :=
  ops.foldl CacheOp.step c

/-! ## Predicate compiler (search.py, compile_ast_to_sql)

AST nodes are Python dicts read with .get, so every slot is optional.
Values are Python primitives (string or int, possibly None).  The alias
lookup get_school_normalized reads the schools table; it is passed in as
the function normalize.  The compiler state mirrors the where_parts
list, the parameter list, the join sets and the is_first_condition flag
of the source loop; conditions are emitted as the exact SQL fragments of
the source, with every value routed to the parameter list. -/

/-- A Python primitive value carried by an AST node or bound parameter. -/
inductive PyVal where
  | s (v : String)
  | i (v : Int)
  | none_
deriving DecidableEq, Repr

/-- Model of Python str(value) for the primitives above. -/
def pyStr : PyVal → String
  | .s v => v
  | .i v => toString v
  | .none_ => "None"

/-- An AST node: a dict with optional field, op and value slots. -/
structure AstNode where
  field : Option String := none
  op : Option String := none
  value : Option PyVal := none
deriving DecidableEq, Repr

/-- Python truthiness of an optional string slot: None and the empty
string are falsy. -/
def truthy : Option String → Bool
  | none => false
  | some s => decide (s ≠ "")

/-- The join sets of the compiler (joins and fts_joins): a Python set of
table names, one membership flag per possible element. -/
structure JoinFlags where
  fts : Bool
  educations : Bool
  practices : Bool
  industries : Bool
  regions : Bool
  languages : Bool
deriving DecidableEq, Repr

/-- The empty join set. -/
def initJoins : JoinFlags := ⟨false, false, false, false, false, false⟩

/-- The joins.add calls performed on entering the branch of a field (they
happen before the operator is inspected). -/
def joinsFor (field : String) (j : JoinFlags) : JoinFlags :=
  if field = "name" then { j with fts := true }
  else if field = "school" then { j with educations := true }
  else if field = "law_school_year" ∨ field = "undergrad_year" ∨ field = "graduated" then
    { j with educations := true }
  else if field = "practice" then { j with practices := true }
  else if field = "industry" then { j with industries := true }
  else if field = "region" then { j with regions := true }
  else if field = "language" then { j with languages := true }
  else j

/-- The condition fragment and bound parameters emitted for one field
node, or none when the field or operator is not recognized (such nodes
are dropped silently).  The SQL text of each branch is transcribed
verbatim from the source; parameter values never reach the text. -/
def condFor (normalize : String → String) (field op : String) (value : PyVal) :
    Option (String × List PyVal) :=
  if field = "name" then
    if op = "contains" then
      some ("fts.full_name MATCH ?",
        [.s (String.intercalate " " (pyWords (pyStrip (pyStr value))))])
    else if op = "eq" then
      some ("fts.full_name MATCH ?", [.s ("\"" ++ pyStr value ++ "\"")])
    else none
  else if field = "title" then
    if op = "eq" then some ("l.title = ?", [value])
    else if op = "contains" then some ("l.title LIKE ?", [.s ("%" ++ pyStr value ++ "%")])
    else none
  else if field = "school" then
    let normalized := normalize (pyStr value)
    if op = "contains" then
      some ("(e.school_name LIKE ? OR e.school_normalized LIKE ?)",
        [.s ("%" ++ pyStr value ++ "%"), .s ("%" ++ normalized ++ "%")])
    else if op = "eq" then
      some ("(e.school_name = ? OR e.school_normalized = ?)", [value, .s normalized])
    else none
  else if field = "law_school_year" ∨ field = "undergrad_year" ∨ field = "graduated" then
    if op = "gt" then some ("e.year > ? AND e.is_law_degree = 1", [value])
    else if op = "lt" then some ("e.year < ? AND e.is_law_degree = 1", [value])
    else if op = "gte" then some ("e.year >= ? AND e.is_law_degree = 1", [value])
    else if op = "lte" then some ("e.year <= ? AND e.is_law_degree = 1", [value])
    else if op = "eq" then some ("e.year = ? AND e.is_law_degree = 1", [value])
    else none
  else if field = "practice" then
    if op = "eq" then some ("p.practice_type = ?", [value])
    else if op = "contains" then
      some ("p.practice_type LIKE ?", [.s ("%" ++ pyStr value ++ "%")])
    else none
  else if field = "industry" then
    if op = "eq" then some ("ind.industry = ?", [value])
    else if op = "contains" then
      some ("ind.industry LIKE ?", [.s ("%" ++ pyStr value ++ "%")])
    else none
  else if field = "region" then
    if op = "eq" then some ("r.region = ?", [value])
    else if op = "contains" then some ("r.region LIKE ?", [.s ("%" ++ pyStr value ++ "%")])
    else none
  else if field = "language" then
    if op = "eq" then some ("LOWER(lang.language) = LOWER(?)", [value])
    else if op = "contains" then
      some ("LOWER(lang.language) LIKE LOWER(?)", [.s ("%" ++ pyStr value ++ "%")])
    else none
  else none

/-- The mutable state of the compiler loop. -/
structure CompState where
  where_parts : List String
  params : List PyVal
  joins : JoinFlags
  is_first_condition : Bool

/-- Appending one emitted condition to the state, inserting the implicit
AND when the previous part is not already a connective. -/
def pushCond (st : CompState) (cond : String × List PyVal) : CompState :=
  let needAnd :=
    !st.is_first_condition &&
      (match st.where_parts.getLast? with
       | some lastPart => decide (lastPart ∉ ["AND", "OR", "NOT"])
       | none => false)
  let wp := if needAnd then st.where_parts ++ ["AND"] else st.where_parts
  { st with
    where_parts := wp ++ [cond.1],
    params := st.params ++ cond.2,
    is_first_condition := false }

/-- One iteration of the compiler loop over the AST. -/
def compileStep (normalize : String → String) (st : CompState) (node : AstNode) : CompState :=
  if node.op = some "AND" then
    { st with where_parts := st.where_parts ++ ["AND"], is_first_condition := false }
  else if node.op = some "OR" then
    { st with where_parts := st.where_parts ++ ["OR"], is_first_condition := false }
  else if node.op = some "NOT" then
    { st with where_parts := st.where_parts ++ ["NOT"], is_first_condition := false }
  else if !truthy node.field || !truthy node.op then st
  else
    let f := node.field.getD ""
    let o := node.op.getD ""
    let v := node.value.getD PyVal.none_
    let st := { st with joins := joinsFor f st.joins }
    match condFor normalize f o v with
    | none => st
    | some cond => pushCond st cond

/-- The deterministic join-clause order of the source. -/
def joinClauses (j : JoinFlags) : List String :=
  (if j.fts then ["INNER JOIN lawyers_fts fts ON l.id = fts.rowid"] else []) ++
  (if j.educations then ["LEFT JOIN educations e ON l.id = e.lawyer_id"] else []) ++
  (if j.practices then ["LEFT JOIN practices p ON l.id = p.lawyer_id"] else []) ++
  (if j.industries then ["LEFT JOIN industries ind ON l.id = ind.lawyer_id"] else []) ++
  (if j.regions then ["LEFT JOIN regions r ON l.id = r.lawyer_id"] else []) ++
  (if j.languages then ["LEFT JOIN languages lang ON l.id = lang.lawyer_id"] else [])

/-- Model of compile_ast_to_sql: the full compiler, producing the query
text and the bound-parameter list. -/
def compile_ast_to_sql (normalize : String → String) (ast : List AstNode) :
    String × List PyVal :=
  if ast.isEmpty then ("SELECT DISTINCT l.id, l.name, l.url FROM lawyers l", [])
  else
    let st := ast.foldl (compileStep normalize) ⟨[], [], initJoins, true⟩
    let jc := joinClauses st.joins
    let sql := "SELECT DISTINCT l.id, l.name, l.url FROM lawyers l"
    let sql := if jc.isEmpty then sql else sql ++ " " ++ String.intercalate " " jc
    let sql :=
      if st.where_parts.isEmpty then sql
      else sql ++ " WHERE " ++ String.intercalate " " st.where_parts
    (sql ++ " ORDER BY l.name", st.params)

/-- One row of the educations sub-table, as the year conditions see it:
a nullable year column and the is_law_degree marker. -/
structure EduRow where
  year : Option Int
  is_law_degree : Int
deriving DecidableEq, Repr

/-- SQLite truth of the year-condition fragments the compiler emits,
evaluated on one education row against the bound year parameter, with
SQL null semantics (a NULL year satisfies no comparison).  Fragments
other than the five year templates evaluate to false here. -/
def evalYearFragment (sqlCond : String) (v : Int) (row : EduRow) : Bool :=
  if sqlCond = "e.year > ? AND e.is_law_degree = 1" then
    (match row.year with | none => false | some y => decide (v < y)) &&
      decide (row.is_law_degree = 1)
  else if sqlCond = "e.year < ? AND e.is_law_degree = 1" then
    (match row.year with | none => false | some y => decide (y < v)) &&
      decide (row.is_law_degree = 1)
  else if sqlCond = "e.year >= ? AND e.is_law_degree = 1" then
    (match row.year with | none => false | some y => decide (v ≤ y)) &&
      decide (row.is_law_degree = 1)
  else if sqlCond = "e.year <= ? AND e.is_law_degree = 1" then
    (match row.year with | none => false | some y => decide (y ≤ v)) &&
      decide (row.is_law_degree = 1)
  else if sqlCond = "e.year = ? AND e.is_law_degree = 1" then
    (match row.year with | none => false | some y => decide (y = v)) &&
      decide (row.is_law_degree = 1)
  else false

/-! ## Semantic retriever (semantic_search.py)

Vectors are modelled as lists of real numbers (the numpy arrays of the
source are one-dimensional after the flatten calls).  The embedding
provider and the pickle decoding are external: the query embedding is an
argument, and each stored row carries its decoded vector directly, with
none standing for a NULL or empty embedding blob (which the row loop
skips).  The join with the lawyers table is modelled by the predicate
lawyerExists. -/

/-- Model of np.dot on one-dimensional vectors. -/
def dotList (a b : List ℝ) : ℝ := (List.zipWith (· * ·) a b).sum

/-- Model of np.linalg.norm: the Euclidean norm. -/
noncomputable def normL2 (a : List ℝ) : ℝ := Real.sqrt (dotList a a)

/-- Model of cosine_similarity: zero when either vector has zero norm,
the normalized dot product otherwise. -/
noncomputable def cosine_similarity (a b : List ℝ) : ℝ :=
  if normL2 a = 0 ∨ normL2 b = 0 then 0 else dotList a b / (normL2 a * normL2 b)

/-- The CorpusNotEmbedded message of the source. -/
def noEmbeddingsMsg : String :=
  "No embeddings found in database. Please generate embeddings first by running:\n" ++
    "  python main.py --generate-embeddings"

/-- Model of semantic_search: raises (Except.error) exactly when the
experience_embeddings table is empty; otherwise ranks the stored rows
that join to a lawyer and carry a non-empty embedding blob, by cosine
similarity descending (a stable sort, as in Python), truncated to k. -/
noncomputable def semantic_search (query_embedding : List ℝ)
    (lawyerExists : Int → Bool)
    (store : List (Int × Option (List ℝ))) (k : Nat) :
    Except String (List (Int × ℝ)) :=
  if store.length = 0 then .error noEmbeddingsMsg
  else
    let rows := store.filter fun r => lawyerExists r.1
    let results := rows.filterMap fun r =>
      r.2.map fun emb => (r.1, cosine_similarity query_embedding emb)
    .ok ((results.mergeSort (fun x y => decide (y.2 ≤ x.2))).take k)

/-- The year-condition fragment the compiler emits for each recognized
year operator (used to state the year-predicate theorems). -/
def yearFragmentFor (op : String) : String :=
  if op = "gt" then "e.year > ? AND e.is_law_degree = 1"
  else if op = "lt" then "e.year < ? AND e.is_law_degree = 1"
  else if op = "gte" then "e.year >= ? AND e.is_law_degree = 1"
  else if op = "lte" then "e.year <= ? AND e.is_law_degree = 1"
  else "e.year = ? AND e.is_law_degree = 1"

/-- Two AST nodes with identical field and operator slots; their value
slots may differ. -/
def sameShape (n m : AstNode) : Prop := n.field = m.field ∧ n.op = m.op

/-- Equality of the text-relevant components of two compiler states:
everything except the bound-parameter lists. -/
def textEqState (st st2 : CompState) : Prop :=
  st.where_parts = st2.where_parts ∧ st.joins = st2.joins ∧
    st.is_first_condition = st2.is_first_condition

/-- Key list of an association list. -/
def keysOf {β : Type} (l : List (String × β)) : List String := l.map Prod.fst

/-- The C10 invariants of a cache state: the entry count never exceeds
max_size, and the entry map and the timestamp map hold exactly the same
keys. -/
def cacheKeyInv {α : Type} (c : QueryCache α) : Prop :=
  c.cache.length ≤ c.max_size ∧
    ∀ k, (lookupA c.cache k).isSome ↔ (lookupA c.timestamps k).isSome

/-! ## Theorems -/

/-- When some complex pattern matches, the simple-pattern loop never
returns: it keeps scanning and falls through. -/
theorem simpleScan_none_of_complex (reSearch : String → String → Bool) (ql : String)
    (h : complex_patterns.any (fun c => reSearch c ql) = true) :
    ∀ ps, simpleScan reSearch ql ps = none := by
  intro ps
  induction ps with
  | nil => rfl
  | cons p rest ih => simp [simpleScan, h, ih]

/-- C8: a query matching at least one semantic-intent (complex) signal
pattern is classified complex (the semantic label) by the deterministic
stage classify_query_fast, even when structured-intent (simple) patterns
also match: semantic signals take precedence. -/
theorem classifier_semantic_precedence (reSearch : String → String → Bool) (query : String)
    (h : complex_patterns.any (fun c => reSearch c (pyStrip (pyLower query))) = true) :
    classify_query_fast reSearch query = "complex" := by
  have hs := simpleScan_none_of_complex reSearch (pyStrip (pyLower query)) h simple_patterns
  simp [classify_query_fast, hs, h]

/-- Witness for C8: with a matcher that accepts exactly the complex
patterns (so some simple pattern contexts are also conceivable), a
concrete query is classified complex. -/
theorem classifier_semantic_precedence_witness :
    classify_query_fast (fun p _ => decide (p ∈ complex_patterns)) "partners on a merger" =
      "complex" :=
  classifier_semantic_precedence _ _ (by decide)

/-- The keyword filter returns an order-preserving subset of its input. -/
theorem keyword_filter_sublist (keywords : List String)
    (texts : Int → Option (Option String × Option String))
    (m : Nat) (candidate_ids : List Int) :
    (keyword_filter_candidates keywords texts m candidate_ids).Sublist candidate_ids := by
  unfold keyword_filter_candidates
  split
  · exact List.Sublist.refl _
  · exact List.filter_sublist _

/-- If the one-match filter keeps nothing, the two-match filter keeps
nothing either. -/
theorem keyword_filter_two_empty (keywords : List String)
    (texts : Int → Option (Option String × Option String))
    (candidate_ids : List Int)
    (hk : keywords ≠ [])
    (h1 : keyword_filter_candidates keywords texts 1 candidate_ids = []) :
    keyword_filter_candidates keywords texts 2 candidate_ids = [] := by
  have hke : keywords.isEmpty = false := by
    cases keywords with
    | nil => exact absurd rfl hk
    | cons a l => rfl
  unfold keyword_filter_candidates at h1 ⊢
  rw [hke] at h1 ⊢
  simp only [Bool.false_eq_true, if_false] at h1 ⊢
  rw [List.filter_eq_nil_iff] at h1 ⊢
  intro a ha hpa
  refine h1 a ha ?_
  revert hpa
  cases htx : texts a with
  | none => simp
  | some t =>
    obtain ⟨pt, ct⟩ := t
    simp only []
    intro h2
    have h2' := of_decide_eq_true h2
    exact decide_eq_true (le_trans (by norm_num) h2')

/-- C5: the keyword pre-filter returns an order-preserving subset of its
candidate list (in particular never more candidates than it received);
and when the input holds at least 20 candidates, the keyword set is
non-empty, and keyword filtering would eliminate every candidate (even
at the relaxed one-match threshold), it returns exactly the first 20
candidates of the original input order. -/
theorem smart_filter_bounds (keywords : List String)
    (texts : Int → Option (Option String × Option String))
    (candidate_ids : List Int) :
    (smart_filter_candidates keywords texts candidate_ids).Sublist candidate_ids ∧
      (keywords ≠ [] →
        keyword_filter_candidates keywords texts 1 candidate_ids = [] →
        20 ≤ candidate_ids.length →
        smart_filter_candidates keywords texts candidate_ids = candidate_ids.take 20) := by
  constructor
  · simp only [smart_filter_candidates]
    split_ifs <;>
      first
        | exact List.take_sublist _ _
        | exact keyword_filter_sublist _ _ _ _
        | exact List.Sublist.refl _
  · intro hk h1 hlen
    have h2 := keyword_filter_two_empty keywords texts candidate_ids hk h1
    have hpos : 0 < candidate_ids.length := lt_of_lt_of_le (by norm_num) hlen
    have hk1 : 1 ≤ keywords.length := by
      cases keywords with
      | nil => exact absurd rfl hk
      | cons a l => exact Nat.succ_le_succ (Nat.zero_le _)
    by_cases h3 : 3 ≤ keywords.length
    · simp [smart_filter_candidates, h3, h2, h1, hpos]
    · simp [smart_filter_candidates, h3, hk1, h1, hpos]

/-- Witness for C5: twenty candidates, a keyword that no cached text
contains, so filtering eliminates everything and the first 20 of the
original order come back. -/
theorem smart_filter_bounds_witness :
    smart_filter_candidates ["bitcoin"] (fun _ => some (some "tax law", some ""))
      [1, 2, 3, 4, 5, 6, 7, 8, 9, 10, 11, 12, 13, 14, 15, 16, 17, 18, 19, 20] =
      [1, 2, 3, 4, 5, 6, 7, 8, 9, 10, 11, 12, 13, 14, 15, 16, 17, 18, 19, 20] :=
  (smart_filter_bounds _ _ _).2 (by decide) (by decide) (by decide)

/-- Unfolding dotList on cons cells. -/
theorem dotList_cons (x y : ℝ) (xs ys : List ℝ) :
    dotList (x :: xs) (y :: ys) = x * y + dotList xs ys := by
  simp [dotList]

/-- The np.dot model is symmetric. -/
theorem dotList_comm (a b : List ℝ) : dotList a b = dotList b a := by
  induction a generalizing b with
  | nil => cases b <;> simp [dotList]
  | cons x xs ih =>
    cases b with
    | nil => simp [dotList]
    | cons y ys => rw [dotList_cons, dotList_cons, ih, mul_comm]

/-- The dot product of a vector with itself is nonnegative. -/
theorem dotList_self_nonneg (a : List ℝ) : 0 ≤ dotList a a := by
  induction a with
  | nil => simp [dotList]
  | cons x xs ih =>
    rw [dotList_cons]
    exact add_nonneg (mul_self_nonneg x) ih

/-- Cauchy-Schwarz for the list dot product. -/
theorem dotList_sq_le (a b : List ℝ) :
    dotList a b ^ 2 ≤ dotList a a * dotList b b := by
  induction a generalizing b with
  | nil => simp [dotList]
  | cons x xs ih =>
    cases b with
    | nil => simp [dotList]
    | cons y ys =>
      have hA := dotList_self_nonneg xs
      have hB := dotList_self_nonneg ys
      have hd := ih ys
      rw [dotList_cons, dotList_cons, dotList_cons]
      set A := dotList xs xs with hAdef
      set B := dotList ys ys with hBdef
      set d := dotList xs ys with hddef
      rcases eq_or_lt_of_le hB with hB0 | hBpos
      · have hd0 : d = 0 := by nlinarith [sq_nonneg d]
        rw [hd0, ← hB0]
        nlinarith [mul_nonneg hA (mul_self_nonneg y)]
      · nlinarith [sq_nonneg (x * B - y * d),
          mul_nonneg (add_nonneg (mul_self_nonneg y) hB) (sub_nonneg.mpr hd), hBpos]

/-- The norm is zero exactly when the self dot product is. -/
theorem normL2_eq_zero (a : List ℝ) : normL2 a = 0 ↔ dotList a a = 0 := by
  unfold normL2
  constructor
  · intro h
    have := Real.sqrt_eq_zero (dotList_self_nonneg a) |>.mp h
    exact this
  · intro h
    rw [h, Real.sqrt_zero]

/-- The norm is nonnegative. -/
theorem normL2_nonneg (a : List ℝ) : 0 ≤ normL2 a := Real.sqrt_nonneg _

/-- The squared norm recovers the self dot product. -/
theorem normL2_sq (a : List ℝ) : normL2 a ^ 2 = dotList a a :=
  Real.sq_sqrt (dotList_self_nonneg a)

/-- The dot product is bounded by the product of the norms. -/
theorem abs_dotList_le (a b : List ℝ) : |dotList a b| ≤ normL2 a * normL2 b := by
  have h := dotList_sq_le a b
  have hb : normL2 a * normL2 b = Real.sqrt (dotList a a * dotList b b) := by
    rw [Real.sqrt_mul (dotList_self_nonneg a)]
    rfl
  rw [hb, ← Real.sqrt_sq_eq_abs]
  exact Real.sqrt_le_sqrt h

/-- C9: cosine similarity is symmetric, bounded in the interval
[-1, 1], and returns exactly 0 whenever either argument has zero norm
(the function is total, so no error can be raised). -/
theorem cosine_similarity_spec (a b : List ℝ) :
    cosine_similarity a b = cosine_similarity b a ∧
      -1 ≤ cosine_similarity a b ∧ cosine_similarity a b ≤ 1 ∧
      (normL2 a = 0 ∨ normL2 b = 0 → cosine_similarity a b = 0) := by
  have hbound : -1 ≤ cosine_similarity a b ∧ cosine_similarity a b ≤ 1 := by
    unfold cosine_similarity
    by_cases h : normL2 a = 0 ∨ normL2 b = 0
    · rw [if_pos h]; norm_num
    · rw [if_neg h]
      push_neg at h
      have ha := lt_of_le_of_ne (normL2_nonneg a) (Ne.symm h.1)
      have hb := lt_of_le_of_ne (normL2_nonneg b) (Ne.symm h.2)
      have hpos : 0 < normL2 a * normL2 b := mul_pos ha hb
      have h1 : |dotList a b / (normL2 a * normL2 b)| ≤ 1 := by
        rw [abs_div, abs_of_pos hpos]
        exact (div_le_one hpos).mpr (abs_dotList_le a b)
      exact abs_le.mp h1
  refine ⟨?_, hbound.1, hbound.2, ?_⟩
  · unfold cosine_similarity
    by_cases h : normL2 a = 0 ∨ normL2 b = 0
    · rw [if_pos h, if_pos (Or.symm h)]
    · rw [if_neg h, if_neg (fun hc => h (Or.symm hc)), dotList_comm,
        mul_comm (normL2 b) (normL2 a)]
  · intro h
    unfold cosine_similarity
    rw [if_pos h]

/-- Witness for C9: the similarity of the zero vector against a
non-zero vector is exactly 0. -/
theorem cosine_similarity_spec_witness :
    cosine_similarity [(0 : ℝ)] [(1 : ℝ)] = 0 :=
  (cosine_similarity_spec [0] [1]).2.2.2
    (Or.inl (by simp [normL2, dotList]))

/-- C1: semantic retrieval raises the distinct corpus-not-embedded error
exactly when the vector store holds zero entries; over a non-empty store
it never raises, and when no stored row yields a candidate (every
embedding blob is empty) it returns the empty list without error — the
two outcomes are distinguishable for every query embedding and store
state. -/
theorem semantic_search_error_distinction (query_embedding : List ℝ)
    (lawyerExists : Int → Bool) (store : List (Int × Option (List ℝ))) (k : Nat) :
    (semantic_search query_embedding lawyerExists store k = .error noEmbeddingsMsg ↔
        store = []) ∧
      (store ≠ [] → (∀ r ∈ store, r.2 = none) →
        semantic_search query_embedding lawyerExists store k = .ok []) := by
  constructor
  · constructor
    · intro h
      by_contra hne
      have hlen : store.length ≠ 0 := fun hc => hne (List.length_eq_zero.mp hc)
      unfold semantic_search at h
      rw [if_neg hlen] at h
      exact Except.noConfusion h
    · intro h
      subst h
      rfl
  · intro hne hnone
    have hlen : store.length ≠ 0 := fun hc => hne (List.length_eq_zero.mp hc)
    unfold semantic_search
    rw [if_neg hlen]
    have hres : (store.filter fun r => lawyerExists r.1).filterMap
        (fun r => r.2.map fun emb => (r.1, cosine_similarity query_embedding emb)) = [] := by
      rw [List.filterMap_eq_nil_iff]
      intro r hr
      rw [hnone r (List.mem_of_mem_filter hr)]
      rfl
    simp only [hres, List.mergeSort_nil, List.take_nil]

/-- Witness for C1: a store holding one row whose embedding blob is
empty is non-empty, so retrieval returns ok with the empty list. -/
theorem semantic_search_error_distinction_witness :
    semantic_search [(1 : ℝ)] (fun _ => true) [((1 : Int), (none : Option (List ℝ)))] 5 =
      .ok [] :=
  (semantic_search_error_distinction [(1 : ℝ)] (fun _ => true) _ 5).2
    (by simp) (by simp)

/-- On an education row not marked as the law degree, every year
fragment the compiler can emit evaluates to false, whatever the year. -/
theorem evalYearFragment_nonlaw (frag : String) (v : Int) (row : EduRow)
    (hd : row.is_law_degree ≠ 1) : evalYearFragment frag v row = false := by
  have hdd : decide (row.is_law_degree = 1) = false := decide_eq_false hd
  unfold evalYearFragment
  split_ifs <;> simp [hdd]

/-- C6: every graduation-year predicate (gt, lt, gte, lte or eq, on any
of the three year field spellings) compiles to a condition that couples
the year comparison with the terminal-law-degree restriction, and that
condition is false on every education row not marked is_law_degree = 1,
even when the year of that row satisfies the comparison: a non-law
degree never causes a match. -/
theorem year_predicate_terminal_degree (normalize : String → String)
    (field opStr : String) (v : PyVal)
    (hf : field = "law_school_year" ∨ field = "undergrad_year" ∨ field = "graduated")
    (ho : opStr ∈ ["gt", "lt", "gte", "lte", "eq"]) :
    condFor normalize field opStr v = some (yearFragmentFor opStr, [v]) ∧
      ∀ (yr : Int) (row : EduRow), row.is_law_degree ≠ 1 →
        evalYearFragment (yearFragmentFor opStr) yr row = false := by
  have ho' : opStr = "gt" ∨ opStr = "lt" ∨ opStr = "gte" ∨ opStr = "lte" ∨ opStr = "eq" := by
    simpa using ho
  constructor
  · rcases hf with hf | hf | hf <;> subst hf <;>
      (rcases ho' with h | h | h | h | h <;> subst h <;> rfl)
  · intro yr row hd
    exact evalYearFragment_nonlaw _ yr row hd

/-- Witness for C6: a graduated-after-2000 predicate emits the guarded
fragment, and a non-law degree dated 2015 (which satisfies the
comparison) does not match. -/
theorem year_predicate_terminal_degree_witness :
    evalYearFragment (yearFragmentFor "gt") 2000 ⟨some 2015, 0⟩ = false :=
  (year_predicate_terminal_degree id "graduated" "gt" (PyVal.i 2000)
    (Or.inr (Or.inr rfl)) (by decide)).2 2000 ⟨some 2015, 0⟩ (by decide)

set_option maxHeartbeats 1000000 in
/-- The emitted condition text (and whether a condition is emitted at
all) depends only on the field and operator of a node, never on its
value. -/
theorem condFor_text_value_blind (normalize : String → String) (f o : String)
    (v v2 : PyVal) :
    (condFor normalize f o v).map Prod.fst = (condFor normalize f o v2).map Prod.fst := by
  have key : ∀ (P : Prop) (inst : Decidable P) (x1 x2 y1 y2 : Option (String × List PyVal)),
      x1.map Prod.fst = x2.map Prod.fst → y1.map Prod.fst = y2.map Prod.fst →
      (if P then x1 else y1).map Prod.fst = (if P then x2 else y2).map Prod.fst := by
    intro P inst x1 x2 y1 y2 hx hy
    by_cases h : P
    · rw [if_pos h, if_pos h]; exact hx
    · rw [if_neg h, if_neg h]; exact hy
  unfold condFor
  repeat' first | apply key | rfl

/-- pushCond keeps states text-equal when the pushed fragments have the
same text. -/
theorem pushCond_textEq (st st2 : CompState) (c c2 : String × List PyVal)
    (hs : textEqState st st2) (hc : c.1 = c2.1) :
    textEqState (pushCond st c) (pushCond st2 c2) := by
  obtain ⟨hw, hj, hf⟩ := hs
  unfold pushCond
  refine ⟨?_, by simpa using hj, rfl⟩
  rw [hw, hf, hc]

/-- One compiler step keeps states text-equal when applied to two nodes
of the same shape. -/
theorem compileStep_textEq (normalize : String → String) (st st2 : CompState)
    (n m : AstNode) (hs : textEqState st st2) (hnm : sameShape n m) :
    textEqState (compileStep normalize st n) (compileStep normalize st2 m) := by
  obtain ⟨hfield, hop⟩ := hnm
  obtain ⟨hw, hj, hf⟩ := hs
  simp only [compileStep]
  rw [← hfield, ← hop]
  split_ifs
  · exact ⟨by rw [hw], hj, rfl⟩
  · exact ⟨by rw [hw], hj, rfl⟩
  · exact ⟨by rw [hw], hj, rfl⟩
  · exact ⟨hw, hj, hf⟩
  · have hshape := condFor_text_value_blind normalize (n.field.getD "") (n.op.getD "")
      (n.value.getD PyVal.none_) (m.value.getD PyVal.none_)
    cases hc : condFor normalize (n.field.getD "") (n.op.getD "") (n.value.getD PyVal.none_) with
    | none =>
      rw [hc] at hshape
      have hc2 : condFor normalize (n.field.getD "") (n.op.getD "")
          (m.value.getD PyVal.none_) = none := by
        cases hc2 : condFor normalize (n.field.getD "") (n.op.getD "")
            (m.value.getD PyVal.none_) with
        | none => rfl
        | some p => rw [hc2] at hshape; exact absurd hshape.symm (by simp)
      rw [hc2]
      exact ⟨hw, by rw [hj], hf⟩
    | some p =>
      rw [hc] at hshape
      cases hc2 : condFor normalize (n.field.getD "") (n.op.getD "")
          (m.value.getD PyVal.none_) with
      | none => rw [hc2] at hshape; exact absurd hshape (by simp)
      | some p2 =>
        rw [hc2] at hshape
        have hp : p.1 = p2.1 := by simpa using hshape
        exact pushCond_textEq _ _ _ _ ⟨hw, by rw [hj], hf⟩ hp

/-- The compiler fold keeps states text-equal along shape-equal ASTs. -/
theorem foldl_compileStep_textEq (normalize : String → String)
    {ast ast2 : List AstNode} (h : List.Forall₂ sameShape ast ast2) :
    ∀ st st2, textEqState st st2 →
      textEqState (ast.foldl (compileStep normalize) st)
        (ast2.foldl (compileStep normalize) st2) := by
  induction h with
  | nil => intro st st2 hs; simpa using hs
  | cons hnm htail ih =>
    intro st st2 hs
    exact ih _ _ (compileStep_textEq _ _ _ _ _ hs hnm)

/-- C7: the compiled query text never depends on predicate values — two
predicate sequences with identical fields, operators and structure but
arbitrary different values compile to identical SQL text; values only
reach the bound-parameter list. -/
theorem compiled_text_value_independent (normalize : String → String)
    (ast ast2 : List AstNode) (h : List.Forall₂ sameShape ast ast2) :
    (compile_ast_to_sql normalize ast).1 = (compile_ast_to_sql normalize ast2).1 := by
  cases h with
  | nil => rfl
  | @cons n m as bs hnm htail =>
    have hst := foldl_compileStep_textEq normalize (List.Forall₂.cons hnm htail)
      ⟨[], [], initJoins, true⟩ ⟨[], [], initJoins, true⟩ ⟨rfl, rfl, rfl⟩
    obtain ⟨hwp, hjoins, _⟩ := hst
    simp only [compile_ast_to_sql, List.isEmpty_cons, hwp, hjoins]
    rfl

/-- Witness for C7: a title-equality predicate on Partner and one on
Associate compile to the same SQL text. -/
theorem compiled_text_value_independent_witness :
    (compile_ast_to_sql id [⟨some "title", some "eq", some (PyVal.s "Partner")⟩]).1 =
      (compile_ast_to_sql id [⟨some "title", some "eq", some (PyVal.s "Associate")⟩]).1 :=
  compiled_text_value_independent id _ _
    (List.Forall₂.cons ⟨rfl, rfl⟩ List.Forall₂.nil)


/-- Unfolding evalEntry when the candidate has no lawyers-table row. -/
theorem evalEntry_info_none (info : Int → Option (String × String))
    (profiles : Int → String) (llmRes : Int → Except String String)
    (collect : Int → Bool) (i : Int) (hinfo : info i = none) :
    evalEntry info profiles llmRes collect i = none := by
  unfold evalEntry
  rw [hinfo]

/-- Unfolding evalEntry when the candidate has a lawyers-table row. -/
theorem evalEntry_info_some (info : Int → Option (String × String))
    (profiles : Int → String) (llmRes : Int → Except String String)
    (collect : Int → Bool) (i : Int) (nm u : String)
    (hinfo : info i = some (nm, u)) :
    evalEntry info profiles llmRes collect i =
      if collect i = true then
        (if (evaluate_lawyer_for_query i (profiles i) (llmRes i)).2.1 = true then
          some ⟨i, nm, u, (evaluate_lawyer_for_query i (profiles i) (llmRes i)).2.2⟩
        else none)
      else none := by
  unfold evalEntry
  rw [hinfo]

/-- An emitted result entry carries the id of its candidate and only
exists when its verdict passed. -/
theorem evalEntry_some_spec (info : Int → Option (String × String))
    (profiles : Int → String) (llmRes : Int → Except String String)
    (collect : Int → Bool) (i : Int) (r : FilterResult)
    (h : evalEntry info profiles llmRes collect i = some r) :
    r.id = i ∧ (evaluate_lawyer_for_query i (profiles i) (llmRes i)).2.1 = true := by
  cases hinfo : info i with
  | none =>
    rw [evalEntry_info_none info profiles llmRes collect i hinfo] at h
    exact absurd h (by simp)
  | some p =>
    obtain ⟨nm, u⟩ := p
    rw [evalEntry_info_some info profiles llmRes collect i nm u hinfo] at h
    by_cases hcol : collect i = true
    · rw [if_pos hcol] at h
      cases hev : (evaluate_lawyer_for_query i (profiles i) (llmRes i)).2.1 with
      | false => rw [hev] at h; simp at h
      | true =>
        rw [hev] at h
        simp only [if_true] at h
        have hx := Option.some_inj.mp h
        exact ⟨by rw [← hx], rfl⟩
    · rw [if_neg hcol] at h
      exact absurd h (by simp)

/-- A result entry whose id equals the distinguished candidate is
removed by the other-candidates filter. -/
theorem filter_ne_cons_drop (j : Int) (r : FilterResult) (L : List FilterResult)
    (h : r.id = j) :
    (r :: L).filter (fun x => decide (x.id ≠ j)) = L.filter (fun x => decide (x.id ≠ j)) := by
  rw [List.filter_cons]
  simp [h]

/-- A result entry of any other candidate is kept by the filter. -/
theorem filter_ne_cons_keep (j : Int) (r : FilterResult) (L : List FilterResult)
    (h : r.id ≠ j) :
    (r :: L).filter (fun x => decide (x.id ≠ j)) =
      r :: L.filter (fun x => decide (x.id ≠ j)) := by
  rw [List.filter_cons]
  simp [h]

/-- Two per-candidate contribution functions that agree away from one
candidate j, and that stamp each entry with its candidate id, induce the
same batch output on the other candidates. -/
theorem filterMap_filter_ne_congr (f g : Int → Option FilterResult) (j : Int)
    (hfg : ∀ i, i ≠ j → f i = g i)
    (hf : ∀ i r, f i = some r → r.id = i)
    (hg : ∀ i r, g i = some r → r.id = i) :
    ∀ ids : List Int,
      (ids.filterMap f).filter (fun x => decide (x.id ≠ j)) =
        (ids.filterMap g).filter (fun x => decide (x.id ≠ j)) := by
  intro ids
  induction ids with
  | nil => rfl
  | cons a as ih =>
    rw [List.filterMap_cons, List.filterMap_cons]
    by_cases haj : a = j
    · subst haj
      cases hfa : f a with
      | none =>
        cases hga : g a with
        | none => exact ih
        | some r => rw [filter_ne_cons_drop a r _ (hg a r hga)]; exact ih
      | some r =>
        rw [filter_ne_cons_drop a r _ (hf a r hfa)]
        cases hga : g a with
        | none => exact ih
        | some r2 => rw [filter_ne_cons_drop a r2 _ (hg a r2 hga)]; exact ih
    · rw [hfg a haj]
      cases hga : g a with
      | none => exact ih
      | some r =>
        have hid : r.id ≠ j := by rw [hg a r hga]; exact haj
        rw [filter_ne_cons_keep j r _ hid, filter_ne_cons_keep j r _ hid, ih]

/-- C2 counterexample: a malformed judge response (no answer and no
thinking tags) is converted to a passed=false verdict whose rationale is
the EMPTY string — refuting the claim that every failure mode
(exception, timeout, or malformed response) yields a non-empty error
rationale. -/
theorem judge_malformed_empty_rationale :
    evaluate_lawyer_for_query 1 "profile text" (Except.ok "garbage") = (1, false, "") := by
  decide

/-- C2 as amended: an exception or timeout raised inside an evaluation
produces a passed=false verdict with the non-empty rationale
Error: ...; a malformed response (one without answer tags) produces a
passed=false verdict whose rationale is whatever thinking text was
extracted, possibly empty; and each evaluation is independent — the
batch output restricted to the other candidates is unchanged when one
profile text, judge outcome or collection status of one candidate
changes, so the batch is never aborted. -/
theorem judge_failure_isolation :
    (∀ (lid : Int) (pt e : String),
        evaluate_lawyer_for_query lid pt (Except.error e) = (lid, false, "Error: " ++ e) ∧
          "Error: " ++ e ≠ "") ∧
      (∀ (lid : Int) (pt response : String),
        pyContains response "<answer>" = false →
          (evaluate_lawyer_for_query lid pt (Except.ok response)).2.1 = false) ∧
      (∀ (ids : List Int) (info : Int → Option (String × String))
          (profiles profiles2 : Int → String)
          (llmRes llmRes2 : Int → Except String String)
          (collect collect2 : Int → Bool) (j : Int),
        (∀ i, i ≠ j → profiles i = profiles2 i ∧ llmRes i = llmRes2 i ∧
          collect i = collect2 i) →
        (parallel_llm_filter ids info profiles llmRes collect).filter
            (fun r => decide (r.id ≠ j)) =
          (parallel_llm_filter ids info profiles2 llmRes2 collect2).filter
            (fun r => decide (r.id ≠ j))) := by
  refine ⟨?_, ?_, ?_⟩
  · intro lid pt e
    refine ⟨rfl, ?_⟩
    intro h
    have h2 := congrArg String.data h
    rw [String.data_append] at h2
    simp at h2
  · intro lid pt response h
    simp [evaluate_lawyer_for_query, h]
    decide
  · intro ids info profiles profiles2 llmRes llmRes2 collect collect2 j hagree
    unfold parallel_llm_filter
    refine filterMap_filter_ne_congr _ _ j ?_ ?_ ?_ ids
    · intro i hi
      obtain ⟨hp, hl, hc⟩ := hagree i hi
      unfold evalEntry
      rw [hp, hl, hc]
    · intro i r h
      exact (evalEntry_some_spec info profiles llmRes collect i r h).1
    · intro i r h
      exact (evalEntry_some_spec info profiles2 llmRes2 collect2 i r h).1

/-- Witness for C2 (amended): in a two-candidate batch where the second
judge call fails with a timeout, the output restricted to the first
candidate is identical to the run where no failure occurs. -/
theorem judge_failure_isolation_witness :
    (parallel_llm_filter [1, 2] (fun _ => some ("N", "u")) (fun _ => "p")
        (fun i => if i = 2 then Except.error "timeout"
          else Except.ok "<answer>Pass</answer>")
        (fun _ => true)).filter (fun r => decide (r.id ≠ 2)) =
      (parallel_llm_filter [1, 2] (fun _ => some ("N", "u")) (fun _ => "p")
        (fun _ => Except.ok "<answer>Pass</answer>")
        (fun _ => true)).filter (fun r => decide (r.id ≠ 2)) :=
  judge_failure_isolation.2.2 [1, 2] _ _ _ _ _ _ _ 2
    (fun i hi => ⟨rfl, by simp [hi], rfl⟩)

/-- C3 counterexample: a two-candidate batch in which both candidates
pass, submitted in the order Zed before Abe, is returned by
parallel_llm_filter (the function main invokes in the resolution
pipeline) in submission order Zed, Abe — not sorted ascending by display
name, because Zed is not at most Abe. -/
theorem judge_results_not_name_sorted :
    ((parallel_llm_filter [1, 2]
        (fun i => if i = 1 then some ("Zed", "u1") else some ("Abe", "u2"))
        (fun _ => "p") (fun _ => Except.ok "<answer>Pass</answer>")
        (fun _ => true)).map (fun r => r.name)) = ["Zed", "Abe"] ∧
      ¬ ("Zed" : String) ≤ "Abe" := by
  constructor
  · decide
  · simp [String.le_iff_toList_le]
    decide

/-- C3 as amended: the list parallel_llm_filter returns (and hence the
list the resolution pipeline in main receives) contains only candidates
whose verdict is passed=true, in candidate submission order; ascending
display-name sorting is applied only by filter_with_reasoning, which
returns a name-sorted permutation of the parallel filter output and
which main does not call. -/
theorem judge_results_passed_and_sorted :
    (∀ (ids : List Int) (info : Int → Option (String × String))
        (profiles : Int → String) (llmRes : Int → Except String String)
        (collect : Int → Bool) (r : FilterResult),
        r ∈ parallel_llm_filter ids info profiles llmRes collect →
          (evaluate_lawyer_for_query r.id (profiles r.id) (llmRes r.id)).2.1 = true) ∧
      (∀ (ids : List Int) (info : Int → Option (String × String))
        (profiles : Int → String) (llmRes : Int → Except String String)
        (collect : Int → Bool),
        List.Pairwise (fun a b : FilterResult => a.name ≤ b.name)
            (filter_with_reasoning ids info profiles llmRes collect) ∧
          (filter_with_reasoning ids info profiles llmRes collect).Perm
            (parallel_llm_filter ids info profiles llmRes collect)) := by
  constructor
  · intro ids info profiles llmRes collect r hr
    unfold parallel_llm_filter at hr
    rw [List.mem_filterMap] at hr
    obtain ⟨lid, hmem, hf⟩ := hr
    obtain ⟨hid, hpass⟩ := evalEntry_some_spec info profiles llmRes collect lid r hf
    rw [hid]
    exact hpass
  · intro ids info profiles llmRes collect
    constructor
    · have htrans : ∀ a b c : FilterResult,
          (fun x y : FilterResult => decide (x.name ≤ y.name)) a b = true →
          (fun x y : FilterResult => decide (x.name ≤ y.name)) b c = true →
          (fun x y : FilterResult => decide (x.name ≤ y.name)) a c = true := by
        intro a b c hab hbc
        simp only [decide_eq_true_eq] at *
        exact le_trans hab hbc
      have htotal : ∀ a b : FilterResult,
          ((fun x y : FilterResult => decide (x.name ≤ y.name)) a b ||
            (fun x y : FilterResult => decide (x.name ≤ y.name)) b a) = true := by
        intro a b
        simp only [Bool.or_eq_true, decide_eq_true_eq]
        exact le_total a.name b.name
      have hs := List.sorted_mergeSort htrans htotal
        (parallel_llm_filter ids info profiles llmRes collect)
      unfold filter_with_reasoning
      exact hs.imp (fun h => of_decide_eq_true h)
    · exact List.mergeSort_perm _ _

/-- Witness for C3 (amended): a returned entry in a concrete passing
batch indeed carries a passing verdict. -/
theorem judge_results_passed_and_sorted_witness :
    (evaluate_lawyer_for_query 1 "p" (Except.ok "<answer>Pass</answer>")).2.1 = true := by
  have h := judge_results_passed_and_sorted.1 [1] (fun _ => some ("Zed", "u1"))
    (fun _ => "p") (fun _ => Except.ok "<answer>Pass</answer>") (fun _ => true)
    ⟨1, "Zed", "u1", ""⟩ (by decide)
  exact h

/-- Looking up after erasing a key finds nothing for that key and is
unchanged for any other key. -/
theorem lookupA_eraseA {β : Type} (l : List (String × β)) (k k2 : String) :
    lookupA (eraseA l k) k2 = if k2 = k then none else lookupA l k2 := by
  induction l with
  | nil => by_cases h : k2 = k <;> simp [eraseA, lookupA, h]
  | cons kv rest ih =>
    obtain ⟨k0, v0⟩ := kv
    by_cases h0 : k0 = k
    · subst h0
      have he : eraseA ((k0, v0) :: rest) k0 = eraseA rest k0 := by
        simp [eraseA, List.filter_cons]
      rw [he, ih]
      by_cases h2 : k2 = k0
      · simp [h2]
      · simp [h2, lookupA, Ne.symm h2]
    · have he : eraseA ((k0, v0) :: rest) k = (k0, v0) :: eraseA rest k := by
        simp [eraseA, List.filter_cons, h0]
      rw [he]
      by_cases h2 : k0 = k2
      · subst h2
        have hne : ¬ k0 = k := h0
        simp [lookupA, hne]
      · simp [lookupA, h2, ih]

/-- Looking up after a dict assignment finds the new value at that key
and is unchanged for any other key. -/
theorem lookupA_setA {β : Type} (l : List (String × β)) (k k2 : String) (v : β) :
    lookupA (setA l k v) k2 = if k2 = k then some v else lookupA l k2 := by
  induction l with
  | nil => by_cases h : k2 = k <;> simp [setA, lookupA, h, Ne.symm]
  | cons kv rest ih =>
    obtain ⟨k0, v0⟩ := kv
    by_cases h0 : k0 = k
    · subst h0
      rw [setA, if_pos rfl]
      by_cases h2 : k2 = k0
      · subst h2
        simp [lookupA]
      · simp [lookupA, Ne.symm h2, h2]
    · rw [setA, if_neg h0]
      by_cases h2 : k0 = k2
      · subst h2
        have hne : ¬ k0 = k := h0
        simp [lookupA, hne]
      · simp [lookupA, h2, ih]

/-- Lookup distributes over append, preferring the first list. -/
theorem lookupA_append {β : Type} (l1 l2 : List (String × β)) (k : String) :
    lookupA (l1 ++ l2) k =
      match lookupA l1 k with
      | none => lookupA l2 k
      | some v => some v := by
  induction l1 with
  | nil => simp [lookupA]
  | cons kv rest ih =>
    obtain ⟨k0, v0⟩ := kv
    by_cases h0 : k0 = k
    · simp [lookupA, h0]
    · simp [lookupA, h0, ih]

/-- Lookup after move_to_end: the moved key keeps its value, every other
key is untouched. -/
theorem lookupA_moveToEnd {β : Type} (l : List (String × β)) (k k2 : String) :
    lookupA (moveToEnd l k) k2 = if k2 = k then lookupA l k else lookupA l k2 := by
  unfold moveToEnd
  cases hl : lookupA l k with
  | none => by_cases h2 : k2 = k <;> simp [h2, hl]
  | some v =>
    rw [lookupA_append, lookupA_eraseA]
    by_cases h2 : k2 = k
    · subst h2
      simp [lookupA, hl]
    · simp only [if_neg h2]
      cases hx : lookupA l k2 with
      | none => simp [lookupA, Ne.symm h2]
      | some w => simp

/-- Erasing never lengthens the list. -/
theorem length_eraseA_le {β : Type} (l : List (String × β)) (k : String) :
    (eraseA l k).length ≤ l.length :=
  List.length_filter_le _ _

/-- Erasing a present key strictly shortens the list. -/
theorem length_eraseA_lt {β : Type} (l : List (String × β)) (k : String)
    (h : (lookupA l k).isSome) : (eraseA l k).length < l.length := by
  induction l with
  | nil => simp [lookupA] at h
  | cons kv rest ih =>
    obtain ⟨k0, v0⟩ := kv
    by_cases h0 : k0 = k
    · subst h0
      have he : eraseA ((k0, v0) :: rest) k0 = eraseA rest k0 := by
        simp [eraseA, List.filter_cons]
      rw [he]
      exact lt_of_le_of_lt (length_eraseA_le rest k0) (by simp)
    · have he : eraseA ((k0, v0) :: rest) k = (k0, v0) :: eraseA rest k := by
        simp [eraseA, List.filter_cons, h0]
      rw [he]
      have hh : (lookupA rest k).isSome := by
        rw [lookupA, if_neg h0] at h
        exact h
      simpa using ih hh

/-- Length after dict assignment: unchanged on overwrite, one more on a
fresh key. -/
theorem length_setA {β : Type} (l : List (String × β)) (k : String) (v : β) :
    (setA l k v).length =
      if (lookupA l k).isSome then l.length else l.length + 1 := by
  induction l with
  | nil => simp [setA, lookupA]
  | cons kv rest ih =>
    obtain ⟨k0, v0⟩ := kv
    by_cases h0 : k0 = k
    · subst h0
      simp [setA, lookupA]
    · rw [setA, if_neg h0, lookupA, if_neg h0]
      by_cases hh : (lookupA rest k).isSome <;> simp [hh, ih]

/-- move_to_end never lengthens the list. -/
theorem length_moveToEnd_le {β : Type} (l : List (String × β)) (k : String) :
    (moveToEnd l k).length ≤ l.length := by
  unfold moveToEnd
  cases hl : lookupA l k with
  | none => exact le_refl _
  | some v =>
    have := length_eraseA_lt l k (by rw [hl]; rfl)
    simpa using this

/-- Erasing an absent key is the identity. -/
theorem eraseA_of_lookup_none {β : Type} (l : List (String × β)) (k : String)
    (h : lookupA l k = none) : eraseA l k = l := by
  induction l with
  | nil => rfl
  | cons kv rest ih =>
    obtain ⟨k0, v0⟩ := kv
    by_cases h0 : k0 = k
    · rw [lookupA, if_pos h0] at h
      exact absurd h (by simp)
    · rw [lookupA, if_neg h0] at h
      have he : eraseA ((k0, v0) :: rest) k = (k0, v0) :: eraseA rest k := by
        simp [eraseA, List.filter_cons, h0]
      rw [he, ih h]

/-- Assigning a fresh key appends the binding at the back. -/
theorem setA_of_lookup_none {β : Type} (l : List (String × β)) (k : String) (v : β)
    (h : lookupA l k = none) : setA l k v = l ++ [(k, v)] := by
  induction l with
  | nil => rfl
  | cons kv rest ih =>
    obtain ⟨k0, v0⟩ := kv
    by_cases h0 : k0 = k
    · rw [lookupA, if_pos h0] at h
      exact absurd h (by simp)
    · rw [lookupA, if_neg h0] at h
      rw [setA, if_neg h0, ih h]
      rfl


/-- get on an absent key: a miss with no state change. -/
theorem QueryCache_get_miss {α : Type} (c : QueryCache α) (now : Int) (q db : String)
    (h : lookupA c.cache (QueryCache.getKey q db) = none) :
    QueryCache.get c now q db = (none, c) := by
  simp only [QueryCache.get]
  rw [h]

/-- get on a key whose timestamp binding is missing: the KeyError path,
modelled as a miss with no state change. -/
theorem QueryCache_get_keyerror {α : Type} (c : QueryCache α) (now : Int) (q db : String)
    (v : α) (h : lookupA c.cache (QueryCache.getKey q db) = some v)
    (h2 : lookupA c.timestamps (QueryCache.getKey q db) = none) :
    QueryCache.get c now q db = (none, c) := by
  simp only [QueryCache.get]
  rw [h, h2]

/-- get on an expired entry: a miss that purges the key from both maps. -/
theorem QueryCache_get_expired {α : Type} (c : QueryCache α) (now : Int) (q db : String)
    (v : α) (ts : Int) (h : lookupA c.cache (QueryCache.getKey q db) = some v)
    (h2 : lookupA c.timestamps (QueryCache.getKey q db) = some ts)
    (h3 : c.ttl_seconds < now - ts) :
    QueryCache.get c now q db =
      (none,
        { c with
            cache := eraseA c.cache (QueryCache.getKey q db),
            timestamps := eraseA c.timestamps (QueryCache.getKey q db) }) := by
  simp only [QueryCache.get]
  rw [h, h2]
  simp [h3]

/-- get on a live entry: a hit that moves the entry to the back of the
recency order. -/
theorem QueryCache_get_live {α : Type} (c : QueryCache α) (now : Int) (q db : String)
    (v : α) (ts : Int) (h : lookupA c.cache (QueryCache.getKey q db) = some v)
    (h2 : lookupA c.timestamps (QueryCache.getKey q db) = some ts)
    (h3 : ¬ c.ttl_seconds < now - ts) :
    QueryCache.get c now q db =
      (some v, { c with cache := moveToEnd c.cache (QueryCache.getKey q db) }) := by
  simp only [QueryCache.get]
  rw [h, h2]
  simp [h3]

/-- set when no eviction triggers (spare capacity, or key already
present). -/
theorem QueryCache_set_noevict {α : Type} (c : QueryCache α) (now : Int) (q db : String)
    (v : α)
    (h : ¬ (c.max_size ≤ c.cache.length ∧
      (lookupA c.cache (QueryCache.getKey q db)).isNone = true)) :
    QueryCache.set c now q db v =
      some
        { c with
            cache := moveToEnd (setA c.cache (QueryCache.getKey q db) v)
              (QueryCache.getKey q db),
            timestamps := setA c.timestamps (QueryCache.getKey q db) now } := by
  simp only [QueryCache.set]
  rw [if_neg h]
  rfl

/-- set at capacity with a fresh key on a non-empty cache: the front
binding is evicted from both maps, then the new binding is inserted. -/
theorem QueryCache_set_evict {α : Type} (c : QueryCache α) (now : Int) (q db : String)
    (v : α) (k0 : String) (v0 : α) (rest : List (String × α))
    (hcache : c.cache = (k0, v0) :: rest)
    (h : c.max_size ≤ c.cache.length ∧
      (lookupA c.cache (QueryCache.getKey q db)).isNone = true) :
    QueryCache.set c now q db v =
      some
        { c with
            cache := moveToEnd (setA (eraseA c.cache k0) (QueryCache.getKey q db) v)
              (QueryCache.getKey q db),
            timestamps := setA (eraseA c.timestamps k0) (QueryCache.getKey q db) now } := by
  simp only [QueryCache.set]
  rw [if_pos h, hcache]
  rfl

/-- set at capacity with a fresh key on an empty cache (max_size zero):
the StopIteration path, modelled as none. -/
theorem QueryCache_set_raise {α : Type} (c : QueryCache α) (now : Int) (q db : String)
    (v : α) (hcache : c.cache = [])
    (h : c.max_size ≤ c.cache.length ∧
      (lookupA c.cache (QueryCache.getKey q db)).isNone = true) :
    QueryCache.set c now q db v = none := by
  simp only [QueryCache.set]
  rw [if_pos h, hcache]
  rfl

/-- One cache operation preserves the C10 invariants. -/
theorem cacheKeyInv_step {α : Type} (c : QueryCache α) (op : CacheOp α)
    (h : cacheKeyInv c) : cacheKeyInv (CacheOp.step c op) := by
  obtain ⟨hlen, hkeys⟩ := h
  cases op with
  | clear =>
    refine ⟨by simp [CacheOp.step, QueryCache.clear], ?_⟩
    intro k
    simp [CacheOp.step, QueryCache.clear, lookupA]
  | get now q db =>
    show cacheKeyInv (QueryCache.get c now q db).2
    cases hc : lookupA c.cache (QueryCache.getKey q db) with
    | none =>
      rw [QueryCache_get_miss c now q db hc]
      exact ⟨hlen, hkeys⟩
    | some v =>
      cases ht : lookupA c.timestamps (QueryCache.getKey q db) with
      | none =>
        rw [QueryCache_get_keyerror c now q db v hc ht]
        exact ⟨hlen, hkeys⟩
      | some ts =>
        by_cases hexp : c.ttl_seconds < now - ts
        · rw [QueryCache_get_expired c now q db v ts hc ht hexp]
          refine ⟨le_trans (length_eraseA_le _ _) hlen, ?_⟩
          intro k2
          by_cases h2 : k2 = QueryCache.getKey q db <;>
            simp [lookupA_eraseA, h2, hkeys k2]
        · rw [QueryCache_get_live c now q db v ts hc ht hexp]
          refine ⟨le_trans (length_moveToEnd_le _ _) hlen, ?_⟩
          intro k2
          by_cases h2 : k2 = QueryCache.getKey q db <;>
            simp [lookupA_moveToEnd, h2, hc, ht, hkeys k2]
  | set now q db v =>
    show cacheKeyInv ((QueryCache.set c now q db v).getD c)
    by_cases hcond : c.max_size ≤ c.cache.length ∧
        (lookupA c.cache (QueryCache.getKey q db)).isNone = true
    · cases hcache : c.cache with
      | nil =>
        rw [QueryCache_set_raise c now q db v hcache hcond]
        exact ⟨hlen, hkeys⟩
      | cons kv rest =>
        obtain ⟨k0, v0⟩ := kv
        rw [QueryCache_set_evict c now q db v k0 v0 rest hcache hcond]
        have hk0 : (lookupA c.cache k0).isSome = true := by
          rw [hcache, lookupA, if_pos rfl]
          rfl
        have hfresh : lookupA c.cache (QueryCache.getKey q db) = none := by
          cases hx : lookupA c.cache (QueryCache.getKey q db) with
          | none => rfl
          | some w => rw [hx] at hcond; simp at hcond
        have hfresh2 : lookupA (eraseA c.cache k0) (QueryCache.getKey q db) = none := by
          rw [lookupA_eraseA]
          by_cases h2 : QueryCache.getKey q db = k0 <;> simp [h2, hfresh]
        have hne : ¬ k0 = QueryCache.getKey q db := by
          intro he
          rw [he, hfresh] at hk0
          simp at hk0
        constructor
        · simp only [Option.getD_some]
          have h1 : (eraseA c.cache k0).length < c.cache.length :=
            length_eraseA_lt c.cache k0 hk0
          have h2 : (setA (eraseA c.cache k0) (QueryCache.getKey q db) v).length =
              (eraseA c.cache k0).length + 1 := by
            rw [length_setA, hfresh2]
            rfl
          calc (moveToEnd (setA (eraseA c.cache k0) (QueryCache.getKey q db) v)
                (QueryCache.getKey q db)).length
              ≤ (setA (eraseA c.cache k0) (QueryCache.getKey q db) v).length :=
                length_moveToEnd_le _ _
            _ = (eraseA c.cache k0).length + 1 := h2
            _ ≤ c.cache.length := h1
            _ ≤ c.max_size := hlen
        · intro k2
          simp only [Option.getD_some]
          by_cases h2 : k2 = QueryCache.getKey q db
          · simp [lookupA_moveToEnd, lookupA_setA, h2]
          · by_cases h3 : k2 = k0
            · subst h3
              simp [lookupA_moveToEnd, lookupA_setA, lookupA_eraseA, h2, hne]
            · simp [lookupA_moveToEnd, lookupA_setA, lookupA_eraseA, h2, h3, hkeys k2]
    · rw [QueryCache_set_noevict c now q db v hcond]
      push_neg at hcond
      constructor
      · simp only [Option.getD_some]
        by_cases hbig : c.max_size ≤ c.cache.length
        · have hpres := hcond hbig
          have hsome : (lookupA c.cache (QueryCache.getKey q db)).isSome = true := by
            cases hx : lookupA c.cache (QueryCache.getKey q db) with
            | none => rw [hx] at hpres; exact absurd rfl hpres
            | some w => rfl
          have h2 : (setA c.cache (QueryCache.getKey q db) v).length = c.cache.length := by
            rw [length_setA, hsome]
            rfl
          calc (moveToEnd (setA c.cache (QueryCache.getKey q db) v)
                (QueryCache.getKey q db)).length
              ≤ (setA c.cache (QueryCache.getKey q db) v).length := length_moveToEnd_le _ _
            _ = c.cache.length := h2
            _ ≤ c.max_size := hlen
        · have hlt : c.cache.length < c.max_size := lt_of_not_le hbig
          calc (moveToEnd (setA c.cache (QueryCache.getKey q db) v)
                (QueryCache.getKey q db)).length
              ≤ (setA c.cache (QueryCache.getKey q db) v).length := length_moveToEnd_le _ _
            _ ≤ c.cache.length + 1 := by
                rw [length_setA]
                by_cases hx : (lookupA c.cache (QueryCache.getKey q db)).isSome = true <;>
                  simp [hx]
            _ ≤ c.max_size := hlt
      · intro k2
        simp only [Option.getD_some]
        by_cases h2 : k2 = QueryCache.getKey q db
        · simp [lookupA_moveToEnd, lookupA_setA, h2]
        · simp [lookupA_moveToEnd, lookupA_setA, h2, hkeys k2]

/-- C10: starting from a fresh cache, after every sequence of get, set
and clear operations the entry count never exceeds max_size and the
entry map and the timestamp map hold exactly the same keys (every entry
has exactly one creation timestamp and no orphan timestamps exist). -/
theorem cache_run_invariants (α : Type) (max_size : Nat) (ttl_seconds : Int)
    (ops : List (CacheOp α)) :
    cacheKeyInv (CacheOp.run (QueryCache.init α max_size ttl_seconds) ops) := by
  have hrun : ∀ (ops : List (CacheOp α)) (c : QueryCache α),
      cacheKeyInv c → cacheKeyInv (CacheOp.run c ops) := by
    intro ops
    induction ops with
    | nil => intro c hc; exact hc
    | cons op rest ih =>
      intro c hc
      exact ih _ (cacheKeyInv_step c op hc)
  refine hrun ops _ ⟨by simp [QueryCache.init], ?_⟩
  intro k
  simp [QueryCache.init, lookupA]

/-- C4: (1) inserting a fresh key into a cache at capacity evicts
exactly the least-recently-used entry — the front binding — and leaves
every other entry intact in order, appending the new binding at the
back; (2) a read of a live entry refreshes its recency by moving the
binding to the back; (3) a get on an entry whose age exceeds the TTL
returns a miss and purges the entry from both maps, wherever it sits in
the recency order — in particular even when it is the most recently
used. -/
theorem cache_lru_eviction_and_ttl (α : Type) :
    (∀ (c : QueryCache α) (now : Int) (q db : String) (v : α) (k0 : String) (v0 : α)
        (rest : List (String × α)),
      c.cache = (k0, v0) :: rest →
      lookupA rest k0 = none →
      c.max_size ≤ c.cache.length →
      lookupA c.cache (QueryCache.getKey q db) = none →
      ∃ c', QueryCache.set c now q db v = some c' ∧
        c'.cache = rest ++ [(QueryCache.getKey q db, v)] ∧
        lookupA c'.timestamps k0 = none) ∧
    (∀ (c : QueryCache α) (now : Int) (q db : String) (v : α) (ts : Int),
      lookupA c.cache (QueryCache.getKey q db) = some v →
      lookupA c.timestamps (QueryCache.getKey q db) = some ts →
      ¬ c.ttl_seconds < now - ts →
      QueryCache.get c now q db =
        (some v,
          { c with
              cache := eraseA c.cache (QueryCache.getKey q db) ++
                [(QueryCache.getKey q db, v)] })) ∧
    (∀ (c : QueryCache α) (now : Int) (q db : String) (v : α) (ts : Int),
      lookupA c.cache (QueryCache.getKey q db) = some v →
      lookupA c.timestamps (QueryCache.getKey q db) = some ts →
      c.ttl_seconds < now - ts →
      (QueryCache.get c now q db).1 = none ∧
        lookupA (QueryCache.get c now q db).2.cache (QueryCache.getKey q db) = none ∧
        lookupA (QueryCache.get c now q db).2.timestamps (QueryCache.getKey q db) = none) := by
  refine ⟨?_, ?_, ?_⟩
  · intro c now q db v k0 v0 rest hcache hrest hmax hfresh
    have hcond : c.max_size ≤ c.cache.length ∧
        (lookupA c.cache (QueryCache.getKey q db)).isNone = true :=
      ⟨hmax, by rw [hfresh]; rfl⟩
    have hfree : lookupA rest (QueryCache.getKey q db) = none := by
      rw [hcache, lookupA] at hfresh
      by_cases h0 : k0 = QueryCache.getKey q db
      · rw [if_pos h0] at hfresh
        exact absurd hfresh (by simp)
      · rw [if_neg h0] at hfresh
        exact hfresh
    have hne : ¬ k0 = QueryCache.getKey q db := by
      intro he
      rw [hcache, lookupA, if_pos he] at hfresh
      exact absurd hfresh (by simp)
    refine ⟨_, QueryCache_set_evict c now q db v k0 v0 rest hcache hcond, ?_, ?_⟩
    · have he1 : eraseA c.cache k0 = rest := by
        rw [hcache]
        have h2 : eraseA ((k0, v0) :: rest) k0 = eraseA rest k0 := by
          simp [eraseA, List.filter_cons]
        rw [h2, eraseA_of_lookup_none rest k0 hrest]
      rw [he1, setA_of_lookup_none rest _ v hfree]
      have hlook : lookupA (rest ++ [(QueryCache.getKey q db, v)])
          (QueryCache.getKey q db) = some v := by
        rw [lookupA_append, hfree]
        simp [lookupA]
      unfold moveToEnd
      rw [hlook]
      have he2 : eraseA (rest ++ [(QueryCache.getKey q db, v)])
          (QueryCache.getKey q db) = rest := by
        unfold eraseA
        rw [List.filter_append]
        have e1 := eraseA_of_lookup_none rest _ hfree
        unfold eraseA at e1
        rw [e1]
        simp
      rw [he2]
    · rw [lookupA_setA, if_neg hne, lookupA_eraseA, if_pos rfl]
  · intro c now q db v ts h1 h2 h3
    have hm : moveToEnd c.cache (QueryCache.getKey q db) =
        eraseA c.cache (QueryCache.getKey q db) ++ [(QueryCache.getKey q db, v)] := by
      unfold moveToEnd
      rw [h1]
    rw [QueryCache_get_live c now q db v ts h1 h2 h3, hm]
  · intro c now q db v ts h1 h2 h3
    rw [QueryCache_get_expired c now q db v ts h1 h2 h3]
    refine ⟨rfl, ?_, ?_⟩ <;> simp [lookupA_eraseA]

/-- Witness for C4: a two-entry cache at capacity 2 receives a third
distinct key; the oldest entry is evicted from both maps and the other
entry survives in front of the new one. -/
theorem cache_lru_eviction_and_ttl_witness :
    ∃ c', QueryCache.set
        (⟨[("a:d", 1), ("b:d", 2)], [("a:d", 10), ("b:d", 20)], 2, 100⟩ :
          QueryCache Nat) 30 "C" "d" 3 = some c' ∧
      c'.cache = [("b:d", 2)] ++ [(QueryCache.getKey "C" "d", 3)] ∧
      lookupA c'.timestamps "a:d" = none :=
  (cache_lru_eviction_and_ttl Nat).1 _ 30 "C" "d" 3 "a:d" 1 [("b:d", 2)]
    rfl (by decide) (by decide) (by decide)
